import Mathlib

set_option maxHeartbeats 1000000

/-!
Shallow embedding of three components of the lightwood repository:

* `lightwood/encoders/numeric/ts_numeric.py` — `TsNumericEncoder`
  (`prepare`, `encode`, `decode`);
* `lightwood/ensemble/best_of.py` — the `BestOf` ensemble's ranking
  (`indexes_by_accuracy`) and inference dispatch (`__call__`);
* `lightwood/data/timeseries_analyzer.py` — `get_delta`.

Machine floats are modelled as exact rationals extended with the three
non-finite IEEE values; `math.log` and `math.exp` are transcendental,
so they enter the embedding only as function parameters (no verified
claim depends on their numeric values).  A Python function that can
raise is modelled with an `Option` result, `none` standing for an
uncaught exception escaping the modelled code.
-/

/-- Model of a Python float: an exact rational, or one of NaN and the
two infinities. -/
inductive PFloat where
  | val : ℚ → PFloat
  | nan : PFloat
  | inf : PFloat
  | ninf : PFloat
deriving DecidableEq

namespace PFloat

/-- Model of `np.isnan`. -/
def isNan : PFloat → Bool
  | nan => true
  | _ => false

/-- Model of the comparison `x == float("inf")` — true only for
positive infinity (NaN compares unequal to everything). -/
def eqPInf : PFloat → Bool
  | inf => true
  | _ => false

/-- Comparison `x < c` of a float with a rational constant; every
comparison with NaN is false. -/
def ltQ : PFloat → ℚ → Bool
  | val a, c => a < c
  | nan, _ => false
  | inf, _ => false
  | ninf, _ => true

/-- Comparison `x > c` of a float with a rational constant. -/
def gtQ : PFloat → ℚ → Bool
  | val a, c => c < a
  | nan, _ => false
  | inf, _ => true
  | ninf, _ => false

/-- IEEE multiplication on the float model. -/
def mul : PFloat → PFloat → PFloat
  | nan, _ => nan
  | val _, nan => nan
  | inf, nan => nan
  | ninf, nan => nan
  | val a, val b => val (a * b)
  | inf, val b => if 0 < b then inf else if b < 0 then ninf else nan
  | ninf, val b => if 0 < b then ninf else if b < 0 then inf else nan
  | val a, inf => if 0 < a then inf else if a < 0 then ninf else nan
  | val a, ninf => if 0 < a then ninf else if a < 0 then inf else nan
  | inf, inf => inf
  | inf, ninf => ninf
  | ninf, inf => ninf
  | ninf, ninf => inf

/-- Model of Python `abs` on floats. -/
def abs : PFloat → PFloat
  | val a => val |a|
  | nan => nan
  | inf => inf
  | ninf => inf

end PFloat

/-- Python `int()` on a finite float: truncation toward zero. -/
def pyIntQ (q : ℚ) : ℤ :=
  if 0 ≤ q then ⌊q⌋ else ⌈q⌉

/-- Python `round()` on a finite float: round half to even. -/
def pyRoundQ (q : ℚ) : ℤ :=
  let f := ⌊q⌋
  let r := q - f
  if r < 1 / 2 then f
  else if 1 / 2 < r then f + 1
  else if f % 2 = 0 then f else f + 1

/-- Python `int()` on the float model; `int` of NaN or an infinity
raises (ValueError / OverflowError), modelled as `none`. -/
def PFloat.pyInt : PFloat → Option PFloat
  | .val a => some (.val (pyIntQ a))
  | _ => none

/-- Python `round()` on the float model; rounding NaN or an infinity
raises, modelled as `none`. -/
def PFloat.pyRound : PFloat → Option PFloat
  | .val a => some (.val (pyRoundQ a))
  | _ => none

/-- A value appearing in a row of `group_info`: either a grouping-column
value, or the placeholder `set()` that `encode`/`decode` insert when no
group information is supplied. -/
inductive GVal where
  | str : String → GVal
  | emptySet : GVal
deriving DecidableEq, BEq

/-- The declared value type of the series (`self._type`). -/
inductive VType where
  | int : VType
  | float : VType
deriving DecidableEq

/-- A group normalizer; `abs_mean` is `none` when the mean is undefined
(NaN, e.g. computed over an empty subset). -/
structure Normalizer where
  abs_mean : Option ℚ
deriving DecidableEq

/-- A key of the `self.normalizers` dict: either the string key of the
default normalizer or a `frozenset` of a row's grouping values
(modelled, already canonicalized, as the list of those values). -/
inductive NKey where
  | dflt : NKey
  | fs : List GVal → NKey
deriving DecidableEq, BEq

/-- State of a `TsNumericEncoder` after `prepare`.  `abs_mean` is
`self._abs_mean` (`none` models the NaN produced by `np.mean` of an
empty list); `vtype` is `self._type`. -/
structure TsNumericEncoder where
  is_target : Bool
  positive_domain : Bool
  decode_log : Bool
  vtype : Option VType
  abs_mean : Option ℚ
  normalizers : List (NKey × Normalizer)
deriving DecidableEq

/-- Type inference in `prepare`: the series is `int` when every
coercible priming value is integral.  A priming datum is modelled
post-coercion: `some r` for a numeric value, `none` for a null. -/
def inferred_type (priming : List (Option ℚ)) : VType :=
  if (priming.filterMap id).all (fun r => r.den = 1) then VType.int else VType.float

/-- The unconditional mean computed by `prepare`:
`np.mean(np.abs(non_null_priming_data))`; the mean of an empty list is
NaN, modelled as `none`. -/
def prepare_abs_mean (priming : List (Option ℚ)) : Option ℚ :=
  let nn := priming.filterMap id
  if nn.isEmpty then none
  else some ((nn.map (fun x => |x|)).sum / nn.length)

/-- `TsNumericEncoder.prepare`: infers the value type (the declared
type, when given, wins) and stores the unconditional absolute mean.
The prepare-twice guard and the NaN-priming-value check raise before
any state is produced and are outside this model. -/
def prepare (is_target positive_domain decode_log : Bool) (declared : Option VType)
    (normalizers : List (NKey × Normalizer)) (priming : List (Option ℚ)) :
    TsNumericEncoder :=
  { is_target := is_target
    positive_domain := positive_domain
    decode_log := decode_log
    vtype := some (declared.getD (inferred_type priming))
    abs_mean := prepare_abs_mean priming
    normalizers := normalizers }

/-- Helper for `pyZipStar`, recursing on the first column. -/
def pyZipStarAux : List GVal → List (List GVal) → List (List GVal)
  | [], _ => []
  | a :: rest, others =>
    if others.all (fun c => !c.isEmpty) then
      (a :: others.map (fun c => c.headD GVal.emptySet)) ::
        pyZipStarAux rest (others.map List.tail)
    else []

/-- Python `list(zip(*cols))`: transpose truncated to the shortest
column. -/
def pyZipStar : List (List GVal) → List (List GVal)
  | [] => []
  | c :: cs => pyZipStarAux c cs

/-- The effective `group_info` dict: when none is supplied (or the
supplied dict is empty) the source substitutes
a single default column whose every row is the placeholder `set()`. -/
def effGroupInfo (n : ℕ) (extra : Option (List (String × List GVal))) :
    List (String × List GVal) :=
  match extra with
  | none => [("__default", List.replicate n GVal.emptySet)]
  | some gi =>
    if gi.isEmpty then [("__default", List.replicate n GVal.emptySet)] else gi

/-- `self.normalizers[frozenset(group)]` guarded by the KeyError
handler that falls back to the default normalizer; `none` models the
uncaught KeyError raised when even the default key is absent. -/
def normLookup (ns : List (NKey × Normalizer)) (group : List GVal) : Option Normalizer :=
  match ns.lookup (NKey.fs group) with
  | some nz => some nz
  | none => ns.lookup NKey.dflt

/-- The Python test `mean > 0` where the mean may be NaN (`none`):
every comparison with NaN is false. -/
def meanPos : Option ℚ → Bool
  | none => false
  | some m => decide (0 < m)

/-- Mean resolution shared by the target branches of `encode` and
`decode`.  The source guard is `if not group:`, so the normalizer
lookup runs only when the row's group tuple is empty; any nonempty
tuple — including the placeholder row used when no group information is
supplied — takes the unconditional `self._abs_mean`. -/
def resolveMeanTarget (enc : TsNumericEncoder) (group : List GVal) : Option (Option ℚ) :=
  if group.isEmpty then (normLookup enc.normalizers group).map Normalizer.abs_mean
  else some enc.abs_mean

/-- The sign flag: 1 iff the value is negative and the domain is not
constrained positive-only. -/
def signFlag (positive_domain : Bool) (r : ℚ) : ℚ :=
  if r < 0 ∧ positive_domain = false then 1 else 0

/-- The log-magnitude component:
`math.log(abs(real)) if abs(real) > 0 else -20`.  `rlog` stands for
`math.log` (transcendental, hence a parameter). -/
def logMag (rlog : ℚ → ℚ) (r : ℚ) : ℚ :=
  if 0 < |r| then rlog |r| else -20

/-- One datum of the target-encoding loop.  `real` is the datum after
float coercion (`none` when both `float(real)` and the comma-decimal
fallback failed, or the datum was null).  A `none` result models the
uncaught KeyError from `resolveMeanTarget`. -/
def encodeRowTarget (enc : TsNumericEncoder) (rlog : ℚ → ℚ) (real : Option ℚ)
    (group : List GVal) : Option (List PFloat) :=
  match resolveMeanTarget enc group with
  | none => none
  | some mean =>
    match real, mean with
    | some r, some m =>
      if 0 < m then
        some [.val (signFlag enc.positive_domain r), .val (logMag rlog r), .val (r / m)]
      else some [.val 0, .val 0, .val 0]
    | _, _ => some [.val 0, .val 0, .val 0]

/-- Division of a value by the stored mean.  `self._abs_mean` is a
`numpy.float64`, so dividing by zero yields an infinity (or NaN for
0/0) with only a RuntimeWarning, and dividing by a NaN mean yields
NaN — no exception is raised. -/
def npDiv (r : ℚ) : Option ℚ → PFloat
  | none => .nan
  | some m =>
    if m = 0 then
      if 0 < r then .inf else if r < 0 then .ninf else .nan
    else .val (r / m)

/-- One datum of the input-encoding (non-target) loop.  The enclosing
try/except of the source is unreachable for numeric data: the mean
division (`npDiv`) never raises, so the components are always
assigned. -/
def encodeRowInput (enc : TsNumericEncoder) (rlog : ℚ → ℚ) (real : Option ℚ) :
    List PFloat :=
  match real with
  | none => [.val 0, .val 0, .val 0, .val 0]
  | some r =>
    [.val 1, .val (logMag rlog r), .val (signFlag enc.positive_domain r),
     npDiv r enc.abs_mean]

/-- The encode loop over the zipped data and group rows. -/
def encodeRows (enc : TsNumericEncoder) (rlog : ℚ → ℚ) :
    List (Option ℚ × List GVal) → Option (List (List PFloat))
  | [] => some []
  | p :: rest =>
    match (if enc.is_target then encodeRowTarget enc rlog p.1 p.2
           else some (encodeRowInput enc rlog p.1)) with
    | none => none
    | some v => (encodeRows enc rlog rest).map (fun t => v :: t)

/-- `TsNumericEncoder.encode` (after the prepare guard): builds the
effective group info, transposes it into per-row group tuples, and
encodes each datum. -/
def encodeData (enc : TsNumericEncoder) (rlog : ℚ → ℚ) (data : List (Option ℚ))
    (extra : Option (List (String × List GVal))) : Option (List (List PFloat)) :=
  let gi := effGroupInfo data.length extra
  let rows := pyZipStar (gi.map Prod.snd)
  encodeRows enc rlog (data.zip rows)

/-- The weird-value check of the target decode branch: it tests each of
the first three components for NaN and for equality with positive
infinity — negative infinity passes. -/
def weirdTarget (v0 v1 v2 : PFloat) : Bool :=
  v0.isNan || v0.eqPInf || v1.isNan || v1.eqPInf || v2.isNan || v2.eqPInf

/-- A possibly-NaN mean as a float. -/
def meanPF : Option ℚ → PFloat
  | none => .nan
  | some m => .val m

/-- One row of the target decode branch.  `rexp` stands for `math.exp`
(`none` models its OverflowError, which the source catches). -/
def decodeRowTarget (enc : TsNumericEncoder) (rexp : ℚ → Option ℚ) (dl : Bool)
    (group : List GVal) (v0 v1 v2 : PFloat) : Option PFloat :=
  let step : Option PFloat :=
    if weirdTarget v0 v1 v2 then some (PFloat.val (10 ^ 63))
    else if dl then
      let sign : ℚ := if v0.gtQ (1 / 2) then -1 else 1
      match v1 with
      | .val q =>
        match rexp q with
        | some e => some (PFloat.val (e * sign))
        | none => some (PFloat.val (10 ^ 63 * sign))
      | .ninf => some (PFloat.val 0)
      | _ => some PFloat.nan
    else
      match resolveMeanTarget enc group with
      | none => none
      | some mean => some (PFloat.mul v2 (meanPF mean))
  match step with
  | none => none
  | some r0 =>
    let r1 := if enc.positive_domain then r0.abs else r0
    if enc.vtype = some VType.int then r1.pyInt else some r1

/-- A decoded output: Python `None` or a numeric value. -/
inductive DecVal where
  | null : DecVal
  | num : PFloat → DecVal
deriving DecidableEq

/-- One row of the non-target decode branch: a presence flag below one
half decodes to `None`; otherwise the scaled component is multiplied
back by the unconditional mean, rounding for integer type.  `none`
models an exception (IndexError on a short vector, or rounding a
non-finite value). -/
def decodeRowInput (enc : TsNumericEncoder) (v0 : PFloat) (rest : List PFloat) :
    Option DecVal :=
  if v0.ltQ (1 / 2) then some DecVal.null
  else
    match rest with
    | _ :: _ :: v3 :: _ =>
      let r := PFloat.mul v3 (meanPF enc.abs_mean)
      if enc.vtype = some VType.int then r.pyRound.map DecVal.num
      else some (DecVal.num r)
    | _ => none

/-- The decode loop over the zipped vectors and group rows. -/
def decodeRows (enc : TsNumericEncoder) (rexp : ℚ → Option ℚ) (dl : Bool) :
    List (List PFloat × List GVal) → Option (List DecVal)
  | [] => some []
  | p :: rest =>
    match (if enc.is_target then
             match p.1 with
             | v0 :: v1 :: v2 :: _ => (decodeRowTarget enc rexp dl p.2 v0 v1 v2).map DecVal.num
             | _ => none
           else
             match p.1 with
             | v0 :: vrest => decodeRowInput enc v0 vrest
             | [] => none) with
    | none => none
    | some v => (decodeRows enc rexp dl rest).map (fun t => v :: t)

/-- `TsNumericEncoder.decode` (after the prepare guard). -/
def decodeData (enc : TsNumericEncoder) (rexp : ℚ → Option ℚ)
    (encoded : List (List PFloat)) (decode_log : Option Bool)
    (group_info : Option (List (String × List GVal))) : Option (List DecVal) :=
  let dl := decode_log.getD enc.decode_log
  let gi := effGroupInfo encoded.length group_info
  let rows := pyZipStar (gi.map Prod.snd)
  decodeRows enc rexp dl (encoded.zip rows)

/-- A mixer as the ensemble sees it: its `stable` flag and the outcome
of running it on the given dataset (`Except.error` models a raised
exception). -/
structure Mixer (R E : Type) where
  stable : Bool
  run : Except E R

/-- Outcome of `BestOf.__call__` in default mode: a returned
prediction, a propagated exception, or the implicit `None` produced
when the loop over ranked mixers falls through. -/
inductive CallResult (R E : Type) where
  | ok : R → CallResult R E
  | raised : E → CallResult R E
  | noResult : CallResult R E
deriving DecidableEq

/-- The default-mode dispatch loop of `BestOf.__call__`: try the ranked
mixers in order; a raising stable mixer propagates, a raising unstable
mixer is logged and skipped. -/
def bestOfTry {R E : Type} (mixers : List (Mixer R E)) :
    List (Fin mixers.length) → CallResult R E
  | [] => CallResult.noResult
  | i :: rest =>
    match (mixers.get i).run with
    | Except.ok r => CallResult.ok r
    | Except.error e =>
      if (mixers.get i).stable then CallResult.raised e
      else bestOfTry mixers rest

/-- Modelled from the spec: `is_nan_numeric` (from
`lightwood.helpers.numeric`, not under src/) detects a non-finite
(NaN/undefined) averaged score. -/
def is_nan_numeric : PFloat → Bool
  | .val _ => false
  | _ => true

/-- Score sanitization in `BestOf.__init__`: a non-finite averaged
score is replaced with the sentinel `-pow(2, 63)`. -/
def sanitizeScore : PFloat → ℚ
  | .val q => q
  | _ => -(2 ^ 63)

/-- The sort key of mixer `i`: its sanitized averaged score. -/
def scoreKey (scores : List PFloat) (i : Fin scores.length) : ℚ :=
  sanitizeScore (scores.get i)

/-- The total order underlying the model of `np.argsort`: ascending by
key, ties broken by original index (a stable ascending argsort). -/
def rankLE {n : ℕ} (key : Fin n → ℚ) (i j : Fin n) : Prop :=
  key i < key j ∨ (key i = key j ∧ i ≤ j)

instance {n : ℕ} (key : Fin n → ℚ) : DecidableRel (rankLE key) := fun i j => by
  unfold rankLE
  infer_instance

instance {n : ℕ} (key : Fin n → ℚ) : IsTotal (Fin n) (rankLE key) := by
  constructor
  intro i j
  rcases lt_trichotomy (key i) (key j) with h | h | h
  · exact Or.inl (Or.inl h)
  · rcases le_total i j with h2 | h2
    · exact Or.inl (Or.inr ⟨h, h2⟩)
    · exact Or.inr (Or.inr ⟨h.symm, h2⟩)
  · exact Or.inr (Or.inl h)

instance {n : ℕ} (key : Fin n → ℚ) : IsTrans (Fin n) (rankLE key) := by
  constructor
  intro i j k hij hjk
  rcases hij with h1 | ⟨h1, h1l⟩
  · rcases hjk with h2 | ⟨h2, _⟩
    · exact Or.inl (h1.trans h2)
    · exact Or.inl (h2 ▸ h1)
  · rcases hjk with h2 | ⟨h2, h2l⟩
    · exact Or.inl (h1 ▸ h2)
    · exact Or.inr ⟨h1.trans h2, h1l.trans h2l⟩

/-- `BestOf.__init__`'s ranking:
`list(reversed(np.array(score_list).argsort()))` over the sanitized
averaged scores. -/
def indexes_by_accuracy (scores : List PFloat) : List (Fin scores.length) :=
  (List.insertionSort (rankLE (scoreKey scores)) (List.finRange scores.length)).reverse

/-- A key of the delta table returned by `get_delta`: the string
default key, or a group combination. -/
inductive DKey where
  | dflt : DKey
  | group : List String → DKey
deriving DecidableEq, BEq

/-- Consecutive differences, the result of the
`rolling(window=2)` difference with its leading NaN dropped (pandas
`value_counts` ignores NaN). -/
def diffs : List ℚ → List ℚ
  | a :: b :: t => (b - a) :: diffs (b :: t)
  | _ => []

/-- Choose from `cands` an element with the maximal number of
occurrences in `l`, earliest first occurrence winning ties — the model
of `value_counts(ascending=False).keys()[0]` (pandas leaves the tie
order unspecified; the spec fixes first-encountered order). -/
def pickMax (l : List ℚ) : List ℚ → Option ℚ
  | [] => none
  | v :: rest =>
    match pickMax l rest with
    | none => some v
    | some b => if l.count b ≤ l.count v then some v else some b

/-- The modal element of a list (`none` on an empty list, where
`keys()[0]` raises IndexError). -/
def modeFirst (l : List ℚ) : Option ℚ :=
  pickMax l l

/-- `pd.Series([x[-1] for x in df[col]])`: the last element of each
ordering cell; `x[-1]` of an empty cell raises, modelled as `none`. -/
def seriesLast : List (List ℚ) → Option (List ℚ)
  | [] => some []
  | c :: rest =>
    match c.getLast? with
    | none => none
    | some v => (seriesLast rest).map (fun t => v :: t)

/-- The default delta of one ordering column: the mode of the
consecutive differences of the column's last elements. -/
def colDelta (df : String → List (List ℚ)) (col : String) : Option ℚ :=
  match seriesLast (df col) with
  | none => none
  | some s => modeFirst (diffs s)

/-- The first loop of `get_delta`, building the default entry column by
column. -/
def defaultDeltas (df : String → List (List ℚ)) : List String → Option (List (String × ℚ))
  | [] => some []
  | col :: rest =>
    match colDelta df col with
    | none => none
    | some d => (defaultDeltas df rest).map (fun m => (col, d) :: m)

/-- Modelled from the spec: `get_group_matches` (from
`lightwood.encoder.time_series.helpers.common`, not under src/) returns
the indices of the rows whose grouping-column values match the group
key component-wise. -/
def groupMatches (ginfo : List (String × List String)) (g : List String) (n : ℕ) :
    List ℕ :=
  (List.range n).filter (fun i => (ginfo.zip g).all (fun p => p.1.2.get? i == some p.2))

/-- The subset of a column's series belonging to one group. -/
def groupSubset (ginfo : List (String × List String)) (g : List String) (s : List ℚ) :
    List ℚ :=
  (groupMatches ginfo g s.length).filterMap s.get?

/-- The inner loop of the group section of `get_delta`: a column
contributes a delta only when the group has more than one matching
observation; otherwise it is skipped.  The `none` in the
more-than-one branch is unreachable (the differences of at least two
points are nonempty) and models the IndexError the source would raise
there. -/
def groupCols (df : String → List (List ℚ)) (ginfo : List (String × List String))
    (g : List String) : List String → Option (List (String × ℚ))
  | [] => some []
  | col :: rest =>
    match seriesLast (df col) with
    | none => none
    | some s =>
      let subset := groupSubset ginfo g s
      match (if 1 < subset.length then (modeFirst (diffs subset)).map (fun d => [(col, d)])
             else some []) with
      | none => none
      | some entry => (groupCols df ginfo g rest).map (fun m => entry ++ m)

/-- The outer loop of the group section of `get_delta`, over the group
combinations, skipping the default key. -/
def groupDeltas (df : String → List (List ℚ)) (ginfo : List (String × List String))
    (order_cols : List String) : List DKey → Option (List (DKey × List (String × ℚ)))
  | [] => some []
  | DKey.dflt :: rest => groupDeltas df ginfo order_cols rest
  | DKey.group gv :: rest =>
    match groupCols df ginfo gv order_cols with
    | none => none
    | some m => (groupDeltas df ginfo order_cols rest).map
        (fun t => (DKey.group gv, m) :: t)

/-- `get_delta`: the default entry, then — only when group info is
present — one entry per non-default group combination. -/
def get_delta (df : String → List (List ℚ)) (ginfo : List (String × List String))
    (combos : List DKey) (order_cols : List String) :
    Option (List (DKey × List (String × ℚ))) :=
  match defaultDeltas df order_cols with
  | none => none
  | some dmap =>
    match (if ginfo.isEmpty then some [] else groupDeltas df ginfo order_cols combos) with
    | none => none
    | some gmaps => some ((DKey.dflt, dmap) :: gmaps)

/-- The sentinel decode magnitude `pow(10, 63)`. -/
def sentinelMag : ℚ := 10 ^ 63

/-- Concrete normalizer map for exercising the group-mean resolution:
one normalizer for the group key, one default. -/
def c1norms : List (NKey × Normalizer) :=
  [(NKey.fs [GVal.str "a"], ⟨some 2⟩), (NKey.dflt, ⟨some 5⟩)]

/-- A prepared target encoder with unconditional mean 1 and the
normalizers above. -/
def c1enc : TsNumericEncoder :=
  prepare true false false (some VType.float) c1norms [some 1]

/-- The averaged mixer scores of the spec's ranking example:
`[0.5, NaN, 0.9]`. -/
def c2scores : List PFloat := [.val (1 / 2), .nan, .val (9 / 10)]

/-- Concrete mixers for the failover example: an unstable one that
raises, a stable one that succeeds, a stable one that raises. -/
def c3mixers : List (Mixer ℕ ℕ) :=
  [{ stable := false, run := Except.error 7 },
   { stable := true, run := Except.ok 42 },
   { stable := true, run := Except.error 9 }]

/-- Two unstable mixers that both raise: the exhaustion scenario. -/
def c4mixers : List (Mixer ℕ ℕ) :=
  [{ stable := false, run := Except.error 1 },
   { stable := false, run := Except.error 2 }]

/-- A non-target encoder prepared on all-zero priming data: its
unconditional mean is 0. -/
def c5enc0 : TsNumericEncoder := prepare false false false none [] [some 0]

/-- A non-target integer-typed encoder prepared on priming data with
mean 2. -/
def c5encW : TsNumericEncoder := prepare false false false none [] [some 2]

/-- A prepared integer-typed target encoder with unconditional mean 1. -/
def c6enc : TsNumericEncoder := prepare true false false (some VType.int) [] [some 1]

/-- The ordering series of the spec's delta example. -/
def c7series : List ℚ := [0, 1, 2, 3, 10, 11, 12]

/-- The example ordering column as a dataframe of one-element cells. -/
def c7df : String → List (List ℚ) := fun _ => [[0], [1], [2], [3], [10], [11], [12]]

/-- A one-row ordering column: too short to difference. -/
def c8dfShort : String → List (List ℚ) := fun _ => [[5]]

/-- A three-row ordering column for the grouped delta example. -/
def c8dfW : String → List (List ℚ) := fun _ => [[0], [1], [2]]

/-- Grouping info where group a matches exactly one row. -/
def c8ginfoW : List (String × List String) := [("g", ["a", "b", "b"])]

/-- Group combinations for the example: the default key and group a. -/
def c8combosW : List DKey := [DKey.dflt, DKey.group ["a"]]

/-- A target encoder prepared on all-zero priming data: its
unconditional mean is 0. -/
def c9enc0 : TsNumericEncoder := prepare true false false none [] [some 0]

/-- A target encoder prepared on priming data with mean 2. -/
def c9encW : TsNumericEncoder := prepare true false false none [] [some 2]

/-- A non-target encoder prepared on priming data with mean 2. -/
def c9encW2 : TsNumericEncoder := prepare false false false none [] [some 2]

theorem filterMap_id_replicate_some (n : ℕ) (q : ℚ) :
    (List.replicate n (some q)).filterMap id = List.replicate n q := by
  induction n with
  | zero => simp
  | succ k ih => simp [List.replicate, ih]

theorem filterMap_id_replicate_none (n : ℕ) :
    (List.replicate n (none : Option ℚ)).filterMap id = [] := by
  induction n with
  | zero => simp
  | succ k ih => simp [List.replicate, ih]

theorem sentinel_abs : PFloat.abs (.val sentinelMag) = .val sentinelMag := by
  simp only [PFloat.abs, sentinelMag]
  norm_num

theorem floor_ten_pow : ((⌊(10 : ℚ) ^ 63⌋ : ℤ) : ℚ) = 10 ^ 63 := by
  rw [show ((10 : ℚ) ^ 63) = ((10 ^ 63 : ℤ) : ℚ) by push_cast; ring, Int.floor_intCast]

theorem pyIntQ_sentinel : ((pyIntQ sentinelMag : ℤ) : ℚ) = sentinelMag := by
  simp only [pyIntQ, sentinelMag]
  rw [if_pos (by positivity)]
  exact floor_ten_pow

theorem sentinel_pyInt : PFloat.pyInt (.val sentinelMag) = some (.val sentinelMag) := by
  simp [PFloat.pyInt, pyIntQ_sentinel]

/-- C1: the source of the failing evaluation: on a row whose group info
is supplied (group key a, with a normalizer of mean 2 stored for it and
a default normalizer of mean 5), the target encode's scaled component
is the value divided by the unconditional prepared mean (1), not by the
group normalizer's mean (2): the guard `if not group:` is inverted, so
the normalizer lookup is reachable only for an empty group tuple. -/
theorem c1_group_mean_ignored :
    encodeData c1enc (fun _ => 0) [some 10] (some [("g", [GVal.str "a"])]) =
      some [[.val 0, .val 0, .val (10 / 1)]]
    ∧ PFloat.val (10 / 1) ≠ PFloat.val (10 / 2) := by
  constructor
  · simp [encodeData, c1enc, prepare, prepare_abs_mean, effGroupInfo, pyZipStar, pyZipStarAux,
      encodeRows, encodeRowTarget, resolveMeanTarget, normLookup, c1norms, signFlag, logMag]
  · simp only [ne_eq, PFloat.val.injEq]
    norm_num

/-- C3: default-mode failover of `BestOf.__call__`: an unstable raising
mixer is skipped (and the next-ranked mixer's successful result is
returned); a stable raising mixer propagates its exception unchanged. -/
theorem c3_failover_policy {R E : Type} (mixers : List (Mixer R E)) (i : Fin mixers.length)
    (rest : List (Fin mixers.length)) (e : E)
    (he : (mixers.get i).run = Except.error e) :
    ((mixers.get i).stable = false → bestOfTry mixers (i :: rest) = bestOfTry mixers rest)
    ∧ ((mixers.get i).stable = false →
        ∀ (j : Fin mixers.length) (rest2 : List (Fin mixers.length)) (r : R),
          rest = j :: rest2 → (mixers.get j).run = Except.ok r →
          bestOfTry mixers (i :: rest) = CallResult.ok r)
    ∧ ((mixers.get i).stable = true → bestOfTry mixers (i :: rest) = CallResult.raised e) := by
  simp only [List.get_eq_getElem] at he
  refine ⟨?_, ?_, ?_⟩
  · intro h
    simp only [List.get_eq_getElem] at h
    simp [bestOfTry, he, h]
  · intro h j rest2 r hrest hj
    subst hrest
    simp only [List.get_eq_getElem] at h hj
    simp [bestOfTry, he, h, hj]
  · intro h
    simp only [List.get_eq_getElem] at h
    simp [bestOfTry, he, h]

theorem c3_witness :
    bestOfTry c3mixers [⟨0, by decide⟩, ⟨1, by decide⟩] = CallResult.ok 42
    ∧ bestOfTry c3mixers [⟨2, by decide⟩] = CallResult.raised 9 := by
  constructor
  · exact (c3_failover_policy c3mixers ⟨0, by decide⟩ [⟨1, by decide⟩] 7 rfl).2.1 rfl
      ⟨1, by decide⟩ [] 42 rfl rfl
  · exact (c3_failover_policy c3mixers ⟨2, by decide⟩ [] 9 rfl).2.2 rfl

/-- C4: when every ranked mixer is unstable and raises, the dispatch
loop of `BestOf.__call__` falls through and yields the implicit
no-result (Python returns None) instead of raising an explicit
no-usable-mixer error. -/
theorem c4_exhaustion_silent_none :
    bestOfTry c4mixers [⟨0, by decide⟩, ⟨1, by decide⟩] = CallResult.noResult := by
  simp [bestOfTry, c4mixers]

/-- C6 counterexample: a prepared integer-typed target encoder decoding
a vector whose scaled component is negative infinity raises (the
weird-value check tests only NaN and positive infinity, and `int()` of
negative infinity raises OverflowError) — it neither returns a value
nor substitutes the sentinel. -/
theorem c6_neg_inf_cex :
    decodeData c6enc (fun _ => some 0) [[.val 0, .val 0, .ninf]] none none = none := by
  simp [decodeData, c6enc, prepare, prepare_abs_mean, effGroupInfo, pyZipStar, pyZipStarAux,
    decodeRows, decodeRowTarget, resolveMeanTarget, weirdTarget, PFloat.isNan, PFloat.eqPInf,
    meanPF, PFloat.mul, PFloat.pyInt]

/-- C6 amended: when one of the first three components is NaN or
positive infinity, the target decode substitutes the sentinel magnitude
`10 ^ 63` and never raises, for every encoder configuration. -/
theorem c6_sentinel_amended (enc : TsNumericEncoder) (rexp : ℚ → Option ℚ) (dl : Bool)
    (group : List GVal) (v0 v1 v2 : PFloat) (h : weirdTarget v0 v1 v2 = true) :
    decodeRowTarget enc rexp dl group v0 v1 v2 = some (PFloat.val sentinelMag) := by
  unfold decodeRowTarget
  rw [show ((10 : ℚ) ^ 63) = sentinelMag from rfl]
  simp only [h, if_true]
  cases hpd : enc.positive_domain <;>
    rcases hvt : enc.vtype with _ | vt <;>
      simp [sentinel_abs, PFloat.pyInt, pyIntQ_sentinel, hvt]

theorem c6_witness :
    decodeRowTarget c6enc (fun _ => some 0) false [GVal.emptySet] PFloat.nan (.val 0) (.val 0) =
      some (PFloat.val sentinelMag) :=
  c6_sentinel_amended c6enc (fun _ => some 0) false [GVal.emptySet] PFloat.nan (.val 0) (.val 0)
    (by decide)

/-- C9 counterexample: a target encoder prepared on all-zero priming
data (unconditional mean 0) encodes the value 0 to the all-zero vector:
its log-magnitude component is 0, not the claimed -20. -/
theorem c9_zero_mean_cex :
    encodeData c9enc0 (fun _ => 0) [some 0] none = some [[.val 0, .val 0, .val 0]]
    ∧ PFloat.val 0 ≠ PFloat.val (-20) := by
  constructor
  · simp [encodeData, c9enc0, prepare, prepare_abs_mean, effGroupInfo, pyZipStar, pyZipStarAux,
      encodeRows, encodeRowTarget, resolveMeanTarget]
  · simp only [ne_eq, PFloat.val.injEq]
    norm_num

/-- C9 amended: provided the resolved mean is strictly positive, a
target encoder encoding the value 0 produces the log-magnitude
stand-in exactly -20 — never negative infinity or NaN; in the
non-target layout the -20 stand-in appears unconditionally for every
encoder (it is assigned before the mean division, which never
raises). -/
theorem c9_log_standin_amended (enc enc2 : TsNumericEncoder) (rlog rlog2 : ℚ → ℚ)
    (group : List GVal) (m : ℚ)
    (h1 : resolveMeanTarget enc group = some (some m)) (h2 : 0 < m) :
    encodeRowTarget enc rlog (some 0) group = some [.val 0, .val (-20), .val 0]
    ∧ encodeRowInput enc2 rlog2 (some 0) =
      [.val 1, .val (-20), .val 0, npDiv 0 enc2.abs_mean] := by
  constructor
  · simp [encodeRowTarget, h1, h2, signFlag, logMag, zero_div]
  · simp [encodeRowInput, signFlag, logMag]

theorem c9_witness :
    encodeRowTarget c9encW (fun _ => 0) (some 0) [GVal.emptySet] =
      some [.val 0, .val (-20), .val 0]
    ∧ encodeRowInput c9encW2 (fun _ => 0) (some 0) =
      [.val 1, .val (-20), .val 0, npDiv 0 c9encW2.abs_mean] :=
  c9_log_standin_amended c9encW c9encW2 (fun _ => 0) (fun _ => 0) [GVal.emptySet] 2
    (by simp [resolveMeanTarget, c9encW, prepare, prepare_abs_mean])
    (by norm_num)

/-- C10: when the resolved normalization mean of a row is not strictly
positive (0, or NaN), the target encode maps every datum of that row —
numeric or not — to the all-zero vector without raising; all-zero
priming makes the prepared mean 0 and all-null priming makes it NaN,
and neither passes the positivity test. -/
theorem c10_nonpositive_mean_zero_vector (enc : TsNumericEncoder) (rlog : ℚ → ℚ)
    (real : Option ℚ) (group : List GVal) (mean : Option ℚ)
    (hres : resolveMeanTarget enc group = some mean) (hm : meanPos mean = false) :
    encodeRowTarget enc rlog real group = some [.val 0, .val 0, .val 0]
    ∧ (∀ n : ℕ, prepare_abs_mean (List.replicate (n + 1) (some (0 : ℚ))) = some 0)
    ∧ (∀ n : ℕ, prepare_abs_mean (List.replicate n (none : Option ℚ)) = none)
    ∧ meanPos (some 0) = false ∧ meanPos none = false := by
  refine ⟨?_, ?_, ?_, by simp [meanPos], by simp [meanPos]⟩
  · unfold encodeRowTarget
    rw [hres]
    rcases real with _ | r
    · rfl
    · rcases mean with _ | m
      · rfl
      · have hm2 : ¬(0 < m) := by
          simpa [meanPos] using hm
        simp [hm2]
  · intro n
    simp [prepare_abs_mean, filterMap_id_replicate_some, List.map_replicate, abs_zero,
      List.sum_replicate, smul_zero, zero_div]
  · intro n
    simp [prepare_abs_mean, filterMap_id_replicate_none]

theorem c10_witness :
    encodeRowTarget c9enc0 (fun _ => 0) (some 5) [GVal.emptySet] =
      some [.val 0, .val 0, .val 0] :=
  (c10_nonpositive_mean_zero_vector c9enc0 (fun _ => 0) (some 5) [GVal.emptySet] (some 0)
    (by simp [resolveMeanTarget, c9enc0, prepare, prepare_abs_mean])
    (by simp [meanPos])).1

theorem ranking_pairwise (scores : List PFloat) :
    (indexes_by_accuracy scores).Pairwise
      (fun i j => scoreKey scores j ≤ scoreKey scores i) := by
  have h1 : (List.insertionSort (rankLE (scoreKey scores)) (List.finRange scores.length)).Sorted
      (rankLE (scoreKey scores)) := List.sorted_insertionSort _ _
  unfold indexes_by_accuracy
  rw [List.pairwise_reverse]
  refine h1.imp ?_
  intro a b hab
  rcases hab with h | ⟨h, _⟩
  · exact le_of_lt h
  · exact le_of_eq h

theorem ranking_sorted (scores : List PFloat) :
    ((indexes_by_accuracy scores).map (scoreKey scores)).Sorted (· ≥ ·) := by
  rw [List.Sorted, List.pairwise_map]
  exact ranking_pairwise scores

theorem mem_ranking (scores : List PFloat) (i : Fin scores.length) :
    i ∈ indexes_by_accuracy scores := by
  unfold indexes_by_accuracy
  rw [List.mem_reverse, List.mem_insertionSort]
  exact List.mem_finRange i

theorem ranking_head_max (scores : List PFloat) (hd : Fin scores.length)
    (hh : (indexes_by_accuracy scores).head? = some hd) (i : Fin scores.length) :
    scoreKey scores i ≤ scoreKey scores hd := by
  cases hl : indexes_by_accuracy scores with
  | nil => rw [hl] at hh; cases hh
  | cons a tl =>
    rw [hl] at hh
    have ha : a = hd := by injection hh
    subst ha
    have hp := ranking_pairwise scores
    rw [hl, List.pairwise_cons] at hp
    have hmem := mem_ranking scores i
    rw [hl, List.mem_cons] at hmem
    rcases hmem with h | h
    · exact le_of_eq (by rw [h])
    · exact hp.1 i h

/-- C2: the ranking of `BestOf.__init__`: a non-finite averaged score
is first replaced by the sentinel `-2 ^ 63`; the mixer indices are
ordered by descending sanitized score; whenever some mixer has a finite
score above the sentinel, the top-ranked mixer is never one with a
non-finite score; and on the example scores [0.5, NaN, 0.9] the ranked
order is mixer 2, mixer 0, mixer 1. -/
theorem c2_ranking_desc_sentinel :
    (∀ s : PFloat, is_nan_numeric s = true → sanitizeScore s = -(2 ^ 63))
    ∧ (∀ scores : List PFloat,
        ((indexes_by_accuracy scores).map (scoreKey scores)).Sorted (· ≥ ·))
    ∧ (∀ (scores : List PFloat) (i : Fin scores.length) (q : ℚ),
        scores.get i = PFloat.val q → -(2 ^ 63) < q →
        ∀ hd : Fin scores.length, (indexes_by_accuracy scores).head? = some hd →
          is_nan_numeric (scores.get hd) = false)
    ∧ (indexes_by_accuracy c2scores).map Fin.val = [2, 0, 1] := by
  refine ⟨?_, ranking_sorted, ?_, ?_⟩
  · intro s hs
    cases s <;> simp [is_nan_numeric] at hs ⊢ <;> simp [sanitizeScore]
  · intro scores i q hq hgt hd hh
    have hmax := ranking_head_max scores hd hh i
    cases hs : scores.get hd with
    | val q2 => simp [is_nan_numeric]
    | nan =>
      exfalso
      rw [scoreKey, scoreKey, hq, hs] at hmax
      simp [sanitizeScore] at hmax
      linarith
    | inf =>
      exfalso
      rw [scoreKey, scoreKey, hq, hs] at hmax
      simp [sanitizeScore] at hmax
      linarith
    | ninf =>
      exfalso
      rw [scoreKey, scoreKey, hq, hs] at hmax
      simp [sanitizeScore] at hmax
      linarith
  · simp only [indexes_by_accuracy, c2scores, List.finRange, List.insertionSort,
      List.orderedInsert]
    norm_num [rankLE, scoreKey, sanitizeScore, List.get]

theorem c2_witness :
    is_nan_numeric (c2scores.get ⟨2, by decide⟩) = false :=
  c2_ranking_desc_sentinel.2.2.1 c2scores ⟨2, by decide⟩ (9 / 10) rfl (by norm_num)
    ⟨2, by decide⟩
    (by simp only [indexes_by_accuracy, c2scores, List.finRange, List.insertionSort,
          List.orderedInsert]
        norm_num [rankLE, scoreKey, sanitizeScore, List.get])

theorem pickMax_eq_none (l : List ℚ) : ∀ cands : List ℚ, pickMax l cands = none ↔ cands = [] := by
  intro cands
  cases cands with
  | nil => simp [pickMax]
  | cons v rest =>
    simp only [pickMax]
    cases h : pickMax l rest with
    | none => simp
    | some b => by_cases hc : l.count b ≤ l.count v <;> simp [hc]

theorem pickMax_spec (l : List ℚ) : ∀ (cands : List ℚ) (b : ℚ), pickMax l cands = some b →
    b ∈ cands ∧ ∀ v ∈ cands, l.count v ≤ l.count b := by
  intro cands
  induction cands with
  | nil => intro b hb; cases hb
  | cons v rest ih =>
    intro b hb
    cases h : pickMax l rest with
    | none =>
      have hrest : rest = [] := (pickMax_eq_none l rest).mp h
      subst hrest
      simp only [pickMax] at hb
      injection hb with hb2
      subst hb2
      refine ⟨by simp, ?_⟩
      intro w hw
      rcases List.mem_cons.mp hw with h1 | h1
      · exact le_of_eq (by rw [h1])
      · cases h1
    | some c =>
      simp only [pickMax, h] at hb
      have hc := ih c h
      by_cases hcmp : l.count c ≤ l.count v
      · rw [if_pos hcmp] at hb
        injection hb with hb2
        subst hb2
        refine ⟨List.mem_cons_self _ _, ?_⟩
        intro w hw
        rcases List.mem_cons.mp hw with h1 | h1
        · exact le_of_eq (by rw [h1])
        · exact le_trans (hc.2 w h1) hcmp
      · rw [if_neg hcmp] at hb
        injection hb with hb2
        subst hb2
        refine ⟨List.mem_cons_of_mem _ hc.1, ?_⟩
        intro w hw
        rcases List.mem_cons.mp hw with h1 | h1
        · rw [h1]; exact le_of_not_le hcmp
        · exact hc.2 w h1

/-- C7: the inferred default delta is the modal consecutive difference
(maximal occurrence count, first-encountered tie-break), and on the
spec's example series the inferred delta is 1 while the mean of the
differences is 2. -/
theorem c7_delta_mode :
    (∀ (l : List ℚ) (d : ℚ), modeFirst l = some d →
      d ∈ l ∧ ∀ v ∈ l, l.count v ≤ l.count d)
    ∧ get_delta c7df [] [DKey.dflt] ["t"] = some [(DKey.dflt, [("t", 1)])]
    ∧ (diffs c7series).sum / ((diffs c7series).length : ℚ) = 2
    ∧ (1 : ℚ) ≠ 2 := by
  refine ⟨?_, ?_, ?_, by norm_num⟩
  · intro l d hd
    exact pickMax_spec l l d hd
  · simp [get_delta, defaultDeltas, colDelta, c7df, seriesLast, diffs, modeFirst, pickMax]
    norm_num
  · norm_num [diffs, c7series]

theorem c7_witness :
    (1 : ℚ) ∈ diffs c7series
    ∧ (diffs c7series).count 7 ≤ (diffs c7series).count 1 := by
  have h := c7_delta_mode.1 (diffs c7series) 1 (by norm_num [diffs, c7series, modeFirst, pickMax])
  exact ⟨h.1, h.2 7 (by norm_num [diffs, c7series])⟩

theorem diffs_ne_nil (l : List ℚ) (h : 2 ≤ l.length) : diffs l ≠ [] := by
  rcases l with _ | ⟨a, _ | ⟨b, t⟩⟩
  · simp at h
  · simp at h
  · simp [diffs]

theorem modeFirst_isSome (l : List ℚ) (h : l ≠ []) : ∃ d, modeFirst l = some d := by
  cases hm : modeFirst l with
  | none => exact absurd ((pickMax_eq_none l l).mp hm) h
  | some d => exact ⟨d, rfl⟩

theorem colDelta_some (df : String → List (List ℚ)) (col : String) (s : List ℚ)
    (hs : seriesLast (df col) = some s) (hlen : 2 ≤ s.length) :
    ∃ d, colDelta df col = some d := by
  obtain ⟨d, hd⟩ := modeFirst_isSome (diffs s) (diffs_ne_nil s hlen)
  exact ⟨d, by simp [colDelta, hs, hd]⟩

theorem defaultDeltas_some (df : String → List (List ℚ)) :
    ∀ cols : List String, (∀ col ∈ cols, ∃ d, colDelta df col = some d) →
    ∃ dm, defaultDeltas df cols = some dm := by
  intro cols
  induction cols with
  | nil => intro _; exact ⟨[], rfl⟩
  | cons col rest ih =>
    intro h
    obtain ⟨d, hd⟩ := h col (List.mem_cons_self _ _)
    obtain ⟨dm, hdm⟩ := ih (fun c hc => h c (List.mem_cons_of_mem _ hc))
    exact ⟨(col, d) :: dm, by simp [defaultDeltas, hd, hdm]⟩

theorem groupCols_spec (df : String → List (List ℚ)) (ginfo : List (String × List String))
    (gv : List String) :
    ∀ cols : List String, (∀ col ∈ cols, ∃ s, seriesLast (df col) = some s) →
    ∃ gm, groupCols df ginfo gv cols = some gm
      ∧ (∀ p ∈ gm, p.1 ∈ cols)
      ∧ (∀ col ∈ cols, ∀ s, seriesLast (df col) = some s →
          (groupSubset ginfo gv s).length ≤ 1 → ∀ d, (col, d) ∉ gm) := by
  intro cols
  induction cols with
  | nil => intro _; exact ⟨[], rfl, by simp, by simp⟩
  | cons col rest ih =>
    intro h
    obtain ⟨s, hs⟩ := h col (List.mem_cons_self _ _)
    obtain ⟨gm, hgm, hkeys, habs⟩ := ih (fun c hc => h c (List.mem_cons_of_mem _ hc))
    by_cases hlen : 1 < (groupSubset ginfo gv s).length
    · obtain ⟨d, hd⟩ := modeFirst_isSome (diffs (groupSubset ginfo gv s))
        (diffs_ne_nil _ hlen)
      refine ⟨(col, d) :: gm, ?_, ?_, ?_⟩
      · simp [groupCols, hs, hlen, hd, hgm]
      · intro p hp
        rcases List.mem_cons.mp hp with h1 | h1
        · rw [h1]; exact List.mem_cons_self _ _
        · exact List.mem_cons_of_mem _ (hkeys p h1)
      · intro c _ s2 hs2 hsub d2 hmem
        rcases List.mem_cons.mp hmem with he | he
        · have hcc : c = col := congrArg Prod.fst he
          rw [hcc, hs] at hs2
          have hss : s = s2 := by injection hs2
          rw [← hss] at hsub
          omega
        · exact habs c (hkeys _ he) s2 hs2 hsub d2 he
    · refine ⟨gm, ?_, ?_, ?_⟩
      · simp [groupCols, hs, hlen, hgm]
      · intro p hp
        exact List.mem_cons_of_mem _ (hkeys p hp)
      · intro c _ s2 hs2 hsub d2 hmem
        exact habs c (hkeys _ hmem) s2 hs2 hsub d2 hmem

theorem groupDeltas_spec (df : String → List (List ℚ)) (ginfo : List (String × List String))
    (cols : List String) (h : ∀ col ∈ cols, ∃ s, seriesLast (df col) = some s) :
    ∀ combos : List DKey, ∃ gt, groupDeltas df ginfo cols combos = some gt
      ∧ ∀ gv, DKey.group gv ∈ combos →
          ∃ gm, (DKey.group gv, gm) ∈ gt ∧ groupCols df ginfo gv cols = some gm := by
  intro combos
  induction combos with
  | nil => exact ⟨[], rfl, by simp⟩
  | cons k rest ih =>
    obtain ⟨gt, hgt, hmem⟩ := ih
    cases k with
    | dflt =>
      refine ⟨gt, by simp [groupDeltas, hgt], ?_⟩
      intro gv hgv
      exact hmem gv (by simpa using hgv)
    | group gv0 =>
      obtain ⟨gm0, hgm0, _, _⟩ := groupCols_spec df ginfo gv0 cols h
      refine ⟨(DKey.group gv0, gm0) :: gt, by simp [groupDeltas, hgm0, hgt], ?_⟩
      intro gv hgv
      rcases List.mem_cons.mp hgv with he | he
      · have : gv = gv0 := by injection he
        subst this
        exact ⟨gm0, List.mem_cons_self _ _, hgm0⟩
      · obtain ⟨gm, h1, h2⟩ := hmem gv he
        exact ⟨gm, List.mem_cons_of_mem _ h1, h2⟩

/-- C8 counterexample: on a single-row ordering column the default
delta computation itself fails (`value_counts` of the all-NaN rolling
difference is empty and `keys()[0]` raises IndexError), so `get_delta`
raises instead of returning a table containing the default entry. -/
theorem c8_short_series_cex :
    get_delta c8dfShort [] [DKey.dflt] ["t"] = none := by
  simp [get_delta, defaultDeltas, colDelta, c8dfShort, seriesLast, diffs, modeFirst, pickMax]

/-- C8 amended: provided every ordering column yields a series of at
least two points, `get_delta` succeeds, its table contains the default
entry, and every non-default group combination receives an entry in
which any column with at most one matching observation is simply
absent — short groups are skipped, never an error. -/
theorem c8_delta_table_amended (df : String → List (List ℚ))
    (ginfo : List (String × List String)) (combos : List DKey) (order_cols : List String)
    (h : ∀ col ∈ order_cols, ∃ s, seriesLast (df col) = some s ∧ 2 ≤ s.length) :
    ∃ t, get_delta df ginfo combos order_cols = some t
      ∧ (∃ dm, (DKey.dflt, dm) ∈ t)
      ∧ (∀ gv, DKey.group gv ∈ combos → ginfo.isEmpty = false →
          ∃ gm, (DKey.group gv, gm) ∈ t
            ∧ ∀ col ∈ order_cols, ∀ s, seriesLast (df col) = some s →
                (groupSubset ginfo gv s).length ≤ 1 → ∀ d, (col, d) ∉ gm) := by
  have hser : ∀ col ∈ order_cols, ∃ s, seriesLast (df col) = some s :=
    fun col hc => (h col hc).imp (fun s hs => hs.1)
  have hcol : ∀ col ∈ order_cols, ∃ d, colDelta df col = some d := by
    intro col hc
    obtain ⟨s, hs, hlen⟩ := h col hc
    exact colDelta_some df col s hs hlen
  obtain ⟨dm, hdm⟩ := defaultDeltas_some df order_cols hcol
  by_cases hgi : ginfo.isEmpty
  · refine ⟨[(DKey.dflt, dm)], ?_, ⟨dm, by simp⟩, ?_⟩
    · simp [get_delta, hdm, hgi]
    · intro gv _ hgi2
      rw [hgi] at hgi2
      cases hgi2
  · obtain ⟨gt, hgt, hmem⟩ := groupDeltas_spec df ginfo order_cols hser combos
    refine ⟨(DKey.dflt, dm) :: gt, ?_, ⟨dm, List.mem_cons_self _ _⟩, ?_⟩
    · simp [get_delta, hdm, hgi, hgt]
    · intro gv hgv _
      obtain ⟨gm, h1, h2⟩ := hmem gv hgv
      obtain ⟨gm2, hgm2, hkeys, habs⟩ := groupCols_spec df ginfo gv order_cols hser
      have hq : gm = gm2 := by
        rw [h2] at hgm2
        injection hgm2
      subst hq
      exact ⟨gm, List.mem_cons_of_mem _ h1,
        fun col hc s hs hsub d => habs col hc s hs hsub d⟩

theorem c8_witness :
    ∃ t, get_delta c8dfW c8ginfoW c8combosW ["t"] = some t
      ∧ (∃ dm, (DKey.dflt, dm) ∈ t)
      ∧ (∀ gv, DKey.group gv ∈ c8combosW → c8ginfoW.isEmpty = false →
          ∃ gm, (DKey.group gv, gm) ∈ t
            ∧ ∀ col ∈ ["t"], ∀ s, seriesLast (c8dfW col) = some s →
                (groupSubset c8ginfoW gv s).length ≤ 1 → ∀ d, (col, d) ∉ gm) :=
  c8_delta_table_amended c8dfW c8ginfoW c8combosW ["t"] (by
    intro col hc
    exact ⟨[0, 1, 2], by simp [c8dfW, seriesLast], by simp⟩)

theorem pyRoundQ_int (q : ℚ) (h : q.den = 1) : ((pyRoundQ q : ℤ) : ℚ) = q := by
  have hq : ((q.num : ℤ) : ℚ) = q := by
    rw [← Rat.num_div_den q, h]
    simp
  have hf : ⌊q⌋ = q.num := by
    nth_rewrite 1 [← hq]
    rw [Int.floor_intCast]
  simp only [pyRoundQ, hf]
  rw [if_pos (by rw [hq]; norm_num)]
  exact hq

theorem pyZipStarAux_nil : ∀ c : List GVal, pyZipStarAux c [] = c.map (fun a => [a]) := by
  intro c
  induction c with
  | nil => rfl
  | cons a rest ih => simp [pyZipStarAux, ih]

theorem pyZipStar_replicate (n : ℕ) :
    pyZipStar [List.replicate n GVal.emptySet] = List.replicate n [GVal.emptySet] := by
  simp [pyZipStar, pyZipStarAux_nil, List.map_replicate]

theorem encodeRowInput_pos (enc : TsNumericEncoder) (rlog : ℚ → ℚ) (v m : ℚ)
    (hm : enc.abs_mean = some m) (h0 : m ≠ 0) :
    encodeRowInput enc rlog (some v) =
      [.val 1, .val (logMag rlog v), .val (signFlag enc.positive_domain v), .val (v / m)] := by
  simp [encodeRowInput, npDiv, hm, h0]

theorem decodeRowInput_roundtrip (enc : TsNumericEncoder) (a b : PFloat) (v m : ℚ)
    (hm : enc.abs_mean = some m) (h0 : m ≠ 0)
    (hden : enc.vtype = some VType.int → v.den = 1) :
    decodeRowInput enc (.val 1) [a, b, .val (v / m)] = some (DecVal.num (.val v)) := by
  have hr : PFloat.mul (.val (v / m)) (meanPF enc.abs_mean) = .val v := by
    simp [hm, meanPF, PFloat.mul, div_mul_cancel₀ v h0]
  have hlt : ¬((1 : ℚ) < 2⁻¹) := by norm_num
  by_cases hvt : enc.vtype = some VType.int
  · simp [decodeRowInput, PFloat.ltQ, hlt, hr, hvt, PFloat.pyRound, pyRoundQ_int v (hden hvt)]
  · simp [decodeRowInput, PFloat.ltQ, hlt, hr, hvt]

theorem encodeRows_input (enc : TsNumericEncoder) (h : enc.is_target = false)
    (rlog : ℚ → ℚ) :
    ∀ x : List ℚ,
      encodeRows enc rlog
        ((x.map some).zip (List.replicate (x.map some).length [GVal.emptySet])) =
      some (x.map (fun v => encodeRowInput enc rlog (some v))) := by
  intro x
  induction x with
  | nil => rfl
  | cons v xs ih =>
    simp only [List.map_cons, List.length_cons, List.length_map, List.replicate_succ,
      List.zip_cons_cons]
    simp only [List.length_map] at ih
    simp [encodeRows, h, ih]

theorem decodeRows_input (enc : TsNumericEncoder) (h : enc.is_target = false)
    (rexp : ℚ → Option ℚ) (dl : Bool) (f : ℚ → List PFloat) (g : ℚ → DecVal) :
    ∀ x : List ℚ,
      (∀ v ∈ x, ∃ v0 vrest, f v = v0 :: vrest ∧ decodeRowInput enc v0 vrest = some (g v)) →
      decodeRows enc rexp dl
        ((x.map f).zip (List.replicate (x.map f).length [GVal.emptySet])) =
      some (x.map g) := by
  intro x
  induction x with
  | nil => intro _; rfl
  | cons v xs ih =>
    intro hrow
    obtain ⟨v0, vrest, hf, hd⟩ := hrow v (List.mem_cons_self _ _)
    have ih2 := ih (fun w hw => hrow w (List.mem_cons_of_mem _ hw))
    simp only [List.map_cons, List.length_cons, List.length_map, List.replicate_succ,
      List.zip_cons_cons]
    simp only [List.length_map] at ih2
    simp [decodeRows, h, hf, hd, ih2]

/-- C5 counterexample: a prepared non-target encoder whose priming data
was all zeros has unconditional mean 0 (inferred type int); encoding
the value 1 makes the scaled component positive infinity (numpy
float64 division by zero warns, it does not raise), decode multiplies
it back by the zero mean giving NaN, and `round` of NaN raises — so
decode of encode of [1] raises instead of returning [1]. -/
theorem c5_zero_mean_cex :
    (encodeData c5enc0 (fun _ => 0) [some 1] none).bind
      (fun vs => decodeData c5enc0 (fun _ => some 0) vs none none) = none
    ∧ (none : Option (List DecVal)) ≠ some [DecVal.num (.val 1)] := by
  constructor
  · simp [encodeData, decodeData, c5enc0, prepare, prepare_abs_mean, effGroupInfo, pyZipStar,
      pyZipStarAux, encodeRows, encodeRowInput, npDiv, decodeRows, decodeRowInput, PFloat.ltQ,
      meanPF, PFloat.mul, PFloat.pyRound, logMag, signFlag, inferred_type]
    norm_num
  · simp

/-- C5 amended: for every prepared non-target encoder whose
unconditional mean is defined and nonzero, and every null-free numeric
series (integral when the declared type is int), decode of encode
returns the series exactly. -/
theorem c5_roundtrip_amended (pd dl : Bool) (declared : Option VType)
    (norms : List (NKey × Normalizer)) (priming : List (Option ℚ)) (x : List ℚ) (m : ℚ)
    (rlog : ℚ → ℚ) (rexp : ℚ → Option ℚ)
    (hm : prepare_abs_mean priming = some m) (h0 : m ≠ 0)
    (hint : (prepare false pd dl declared norms priming).vtype = some VType.int →
      ∀ v ∈ x, v.den = 1) :
    (encodeData (prepare false pd dl declared norms priming) rlog (x.map some) none).bind
      (fun vs => decodeData (prepare false pd dl declared norms priming) rexp vs none none)
      = some (x.map (fun v => DecVal.num (.val v))) := by
  set enc := prepare false pd dl declared norms priming with henc
  have htar : enc.is_target = false := rfl
  have habs : enc.abs_mean = some m := by rw [henc]; simpa [prepare] using hm
  have henc1 : encodeData enc rlog (x.map some) none =
      some (x.map (fun v => encodeRowInput enc rlog (some v))) := by
    unfold encodeData
    simp only [effGroupInfo, List.map_cons, List.map_nil, pyZipStar_replicate]
    exact encodeRows_input enc htar rlog x
  rw [henc1, Option.some_bind]
  unfold decodeData
  simp only [effGroupInfo, List.map_cons, List.map_nil, pyZipStar_replicate, Option.getD_none]
  refine decodeRows_input enc htar rexp enc.decode_log _ _ x ?_
  intro v hv
  refine ⟨.val 1,
    [.val (logMag rlog v), .val (signFlag enc.positive_domain v), .val (v / m)], ?_, ?_⟩
  · exact encodeRowInput_pos enc rlog v m habs h0
  · exact decodeRowInput_roundtrip enc _ _ v m habs h0 (fun hvt => hint hvt v hv)

theorem c5_witness :
    (encodeData c5encW (fun _ => 0) [some 3] none).bind
      (fun vs => decodeData c5encW (fun _ => some 0) vs none none) =
      some [DecVal.num (.val 3)] :=
  c5_roundtrip_amended false false none [] [some 2] [3] 2 (fun _ => 0) (fun _ => some 0)
    (by simp [prepare_abs_mean])
    (by norm_num)
    (by intro _ v hv
        simp only [List.mem_singleton] at hv
        subst hv
        rfl)
